import Mathlib

/-!
Verification of the sora language core (type inference for function
parameters, bytecode generation, and result projection) against its
specification.  The Rust sources embedded here are `src/typeinfer.rs`
and `src/codegen.rs`; the data declarations they depend on
(`parser::AST`, `parser::Operator`, `typechecker::Type`,
`typechecker::TypedAST`, `vm::Opcode`, `vm::Value`) live in source
files outside the provided tree and are reconstructed from the
specification's data model (spec sections 3.1-3.6) and from how the
embedded sources destructure them.
-/

namespace Sora

/-- The type language (`typechecker::Type`, spec section 3.2):
`Integer | Boolean | Tuple(Type+) | Function(Type→Type) | Any`. -/
inductive Ty where
  | Integer : Ty
  | Boolean : Ty
  | Tuple : List Ty → Ty
  | Function : Ty → Ty → Ty
  | Any : Ty
deriving Repr

/-- Operators (`parser::Operator`), in the order matched by
`type_from_operator` in src/typeinfer.rs. -/
inductive Operator where
  | And | Divide | Equal | Greater | GreaterEqual | Less | LessEqual
  | Minus | Mod | Multiply | Not | NotEqual | Or | Plus
deriving Repr, DecidableEq

/-- Untyped AST produced by the parser (spec section 3.1).  Every node
carries a source position `(line, col)` as its last two fields, matching
the `(_, _)` suffixes destructured throughout src/typeinfer.rs. -/
inductive AST where
  | Integer : Int → Nat → Nat → AST
  | Boolean : Bool → Nat → Nat → AST
  | Identifier : String → Nat → Nat → AST
  | UnaryOp : Operator → AST → Nat → Nat → AST
  | BinaryOp : Operator → AST → AST → Nat → Nat → AST
  | Tuple : List AST → Nat → Nat → AST
  | If : List (AST × AST) → AST → Nat → Nat → AST
  | Function : AST → AST → Nat → Nat → AST
  | Call : AST → AST → Nat → Nat → AST
  | Let : String → AST → Nat → Nat → AST
  | Recur : AST → Nat → Nat → AST
  | Program : List AST → Nat → Nat → AST
deriving Repr

/-- src/typeinfer.rs lines 4-21: operand type fixed by an operator;
`Equal` and `NotEqual` have none. -/
def type_from_operator : Operator → Option Ty
  | .And => some .Boolean
  | .Divide => some .Integer
  | .Equal => none
  | .Greater => some .Integer
  | .GreaterEqual => some .Integer
  | .Less => some .Integer
  | .LessEqual => some .Integer
  | .Minus => some .Integer
  | .Mod => some .Integer
  | .Multiply => some .Integer
  | .Not => some .Boolean
  | .NotEqual => none
  | .Or => some .Boolean
  | .Plus => some .Integer

/-- Is this node `Identifier(s)` with `s = id`?  Captures the
`if let parser::AST::Identifier(s, _, _) = ... if s == id` tests at
src/typeinfer.rs lines 26-27 and 59-60. -/
def is_id (id : String) : AST → Bool
  | .Identifier s _ _ => s == id
  | _ => false

/-- The `None =>` arm of the operand-type match inside `typeinfer`'s
`BinaryOp` case: when the operator is `==`/`~=`, inspect the operand
opposite the identifier.  src/typeinfer.rs lines 30-55 (identifier on
the left, opposite operand is `rhs`) and lines 63-88 (identifier on the
right, opposite operand is `lhs`); the two source blocks differ only in
the order of their disjoint match arms.  The operator of the enclosing
comparison is `op` (reachable here only with `Equal`/`NotEqual`). -/
def other_side (op : Operator) : AST → Option Ty
  | .Boolean _ _ _ => some .Boolean
  | .BinaryOp op2 _ _ _ _ =>
    match type_from_operator op2 with
    | some typ => some typ
    | none =>
      match op2 with
      | .Equal => some .Any
      | .NotEqual => some .Any
      | _ => none
  | .Integer _ _ _ => some .Integer
  | .UnaryOp op2 _ _ _ => type_from_operator op2
  | _ =>
    match op with
    | .Equal => some .Any
    | .NotEqual => some .Any
    | _ => none

mutual

/-- src/typeinfer.rs lines 23-148: infer the type of parameter `id`
from its first constraining use-site in `ast`.  The `_ => None`
catch-all of the source covers `Identifier`, `Call` and `Recur`. -/
def typeinfer (id : String) : AST → Option Ty
  | .BinaryOp op lhs rhs _ _ =>
    if is_id id lhs then
      match type_from_operator op with
      | some typ => some typ
      | none => other_side op rhs
    else if is_id id rhs then
      match type_from_operator op with
      | some typ => some typ
      | none => other_side op lhs
    else
      match typeinfer id lhs with
      | some typ => some typ
      | none => typeinfer id rhs
  | .Boolean _ _ _ => some .Boolean
  | .Function _ body _ _ => typeinfer id body
  | .If conds els _ _ =>
    match typeinfer_conds id conds with
    | some typ => some typ
    | none => typeinfer id els
  | .Integer _ _ _ => some .Integer
  | .Let _ value _ _ => typeinfer id value
  | .Program expressions _ _ => typeinfer_list id expressions
  | .Tuple elements _ _ => typeinfer_list id elements
  | .UnaryOp op ast _ _ =>
    if is_id id ast then type_from_operator op
    else typeinfer id ast
  | _ => none

/-- The `for cond in conds` loop of the `If` case
(src/typeinfer.rs lines 100-109): condition, then body, first
`Some` wins. -/
def typeinfer_conds (id : String) : List (AST × AST) → Option Ty
  | [] => none
  | (c, b) :: rest =>
    match typeinfer id c with
    | some typ => some typ
    | none =>
      match typeinfer id b with
      | some typ => some typ
      | none => typeinfer_conds id rest

/-- The element loops of the `Program` and `Tuple` cases
(src/typeinfer.rs lines 117-134): first `Some` wins, else `None`. -/
def typeinfer_list (id : String) : List AST → Option Ty
  | [] => none
  | e :: rest =>
    match typeinfer id e with
    | some typ => some typ
    | none => typeinfer_list id rest

end

/-- The behaviour the specification ascribes to the operand opposite an
identifier in an `==`/`~=` comparison, stated in the spec's own words: a
literal yields its type, a unary op yields its operator's operand type,
a binary op with a fixed operand type yields that type, and anything
else yields `Any`. -/
def spec_eq_operand_type : AST → Option Ty
  | .Integer _ _ _ => some .Integer
  | .Boolean _ _ _ => some .Boolean
  | .UnaryOp op _ _ _ => type_from_operator op
  | .BinaryOp op _ _ _ _ =>
    match type_from_operator op with
    | some typ => some typ
    | none => some .Any
  | _ => some .Any

/-- Does an option hold one of the scalar inference outcomes
(`None`, `Integer`, `Boolean`, `Any`)? -/
def is_scalar_inference : Option Ty → Bool
  | none => true
  | some .Integer => true
  | some .Boolean => true
  | some .Any => true
  | some _ => false

/-- Modelled from the spec: the typed AST (spec section 3.3;
`typechecker::TypedAST` lives outside the provided tree).  Field layout
follows how src/codegen.rs destructures each variant. -/
inductive TypedAST where
  | BinaryOp : Ty → Operator → TypedAST → TypedAST → Nat → Nat → TypedAST
  | Boolean : Bool → TypedAST
  | Call : TypedAST → TypedAST → TypedAST
  | Function : TypedAST → TypedAST → TypedAST
  | Identifier : Ty → String → TypedAST
  | If : List (TypedAST × TypedAST) → TypedAST → TypedAST
  | Integer : Int → TypedAST
  | Let : Ty → String → TypedAST → TypedAST
  | Program : Ty → List TypedAST → TypedAST
  | Recur : Ty → TypedAST → TypedAST
  | Tuple : Ty → List TypedAST → TypedAST
  | UnaryOp : Ty → Operator → TypedAST → TypedAST
deriving Repr

/-- Modelled from the spec: `type_of` (spec section 3.3) reports the type
recorded on a typed node; `Call` reports its callee's result type,
`Function` its full signature, `If` its first body's type (the reference
type in the checker's mismatch diagnostics). -/
def type_of : TypedAST → Ty
  | .BinaryOp t _ _ _ _ _ => t
  | .Boolean _ => .Boolean
  | .Call f _ =>
    match type_of f with
    | .Function _ ret => ret
    | t => t
  | .Function param body => .Function (type_of param) (type_of body)
  | .Identifier t _ => t
  | .If conds els =>
    match conds with
    | (_, b) :: _ => type_of b
    | [] => type_of els
  | .Integer _ => .Integer
  | .Let t _ _ => t
  | .Program t _ => t
  | .Recur t _ => t
  | .Tuple t _ => t
  | .UnaryOp t _ _ => t

/-- Argument-offset map (`ids: HashMap<String, usize>` in
src/codegen.rs), modelled extensionally. -/
abbrev Ids := String → Option Nat

def ids_empty : Ids := fun _ => none

def ids_insert (k : String) (v : Nat) (m : Ids) : Ids :=
  fun s => if s = k then some v else m s

def ids_remove (k : String) (m : Ids) : Ids :=
  fun s => if s = k then none else m s

/-- Upvalue map (`upvalues: HashMap<String, (usize, Type)>` in
src/codegen.rs), modelled extensionally. -/
abbrev Upvals := String → Option (Nat × Ty)

def upvals_empty : Upvals := fun _ => none

def upvals_insert (k : String) (v : Nat × Ty) (m : Upvals) : Upvals :=
  fun s => if s = k then some v else m s

/-- Modelled from the spec: runtime values (spec section 3.5;
`vm::Value` lives outside the provided tree).  A function value carries
its code ip and captured-upvalue map. -/
inductive Value where
  | Integer : Int → Value
  | Boolean : Bool → Value
  | Tuple : List Value → Value
  | Function : Nat → (String → Option (Nat × Ty)) → Value

/-- Modelled from the spec: VM opcodes (spec section 3.6; `vm::Opcode`
lives outside the provided tree).  Jump offsets are `i64` in the source
and are modelled as `Int`. -/
inductive Opcode where
  | Iconst : Int → Opcode
  | Bconst : Bool → Opcode
  | Fconst : Nat → Upvals → Opcode
  | Add | Sub | Mul | Div | Mod
  | And | Or | Not
  | Equal | NotEqual | Less | LessEqual | Greater | GreaterEqual
  | Dup | Pop | Rot
  | Arg : Nat → Opcode
  | GetEnv : String → Opcode
  | SetEnv : String → Opcode
  | Jz : Int → Opcode
  | Jmp : Int → Opcode
  | Call
  | Ret : Nat → Opcode
  | Recur : Nat → Opcode
  | Srcpos : Nat → Nat → Opcode

mutual

/-- src/codegen.rs lines 23-80: scan a function body for identifiers
that refer to outer-function arguments (`ids`), recording each hit in
`upvalues`.  Both maps are `&mut` in the source and are threaded here as
state; the `_ => {}` catch-all covers `Integer` and `Boolean`. -/
def find_upvalues : TypedAST → Ids → Upvals → Ids × Upvals
  | .BinaryOp _ _ lhs rhs _ _, ids, up =>
    let r := find_upvalues lhs ids up
    find_upvalues rhs r.1 r.2
  | .Call f args, ids, up =>
    let r := find_upvalues f ids up
    find_upvalues args r.1 r.2
  | .Function param body, ids, up =>
    let r1 := find_upvalues param ids up
    let r2 := find_upvalues body r1.1 r1.2
    (ids, r2.2)
  | .If conds els, ids, up =>
    let r := find_upvalues_conds conds ids up
    find_upvalues els r.1 r.2
  | .Identifier typ id, ids, up =>
    match ids id with
    | some offset => (ids, upvals_insert id (offset, typ) up)
    | none => (ids, up)
  | .Let _ id value, ids, up =>
    -- Shadow id while it is in scope: the source's conditional remove
    -- (lines 57-59) equals an unconditional remove
    find_upvalues value (ids_remove id ids) up
  | .Program _ expressions, ids, up => find_upvalues_list expressions ids up
  | .Recur _ args, ids, up => find_upvalues args ids up
  | .Tuple _ elements, ids, up => find_upvalues_list elements ids up
  | .UnaryOp _ _ ast, ids, up => find_upvalues ast ids up
  | _, ids, up => (ids, up)

/-- The branch loop of `find_upvalues`'s `If` case
(src/codegen.rs lines 43-46). -/
def find_upvalues_conds : List (TypedAST × TypedAST) → Ids → Upvals → Ids × Upvals
  | [], ids, up => (ids, up)
  | (c, b) :: rest, ids, up =>
    let r1 := find_upvalues c ids up
    let r2 := find_upvalues b r1.1 r1.2
    find_upvalues_conds rest r2.1 r2.2

/-- The element loops of `find_upvalues`'s `Program` and `Tuple` cases
(src/codegen.rs lines 62-66 and 70-74). -/
def find_upvalues_list : List TypedAST → Ids → Upvals → Ids × Upvals
  | [], ids, up => (ids, up)
  | e :: rest, ids, up =>
    let r := find_upvalues e ids up
    find_upvalues_list rest r.1 r.2

end

/-- `i64::max_value()`, the placeholder offset of an unpatched `Jmp`
(src/codegen.rs line 212). -/
def jmp_sentinel : Int := 2 ^ 63 - 1

/-- One step of the jump-rewriting loop of the `If` case
(src/codegen.rs lines 219-224), in coordinates local to the `If` region:
the `Jmp` at local index `i` of a region of length `total` gets offset
`total - i`. -/
def patch_jmps_from (total : Nat) : Nat → List Opcode → List Opcode
  | _, [] => []
  | i, op :: rest =>
    (match op with
     | .Jmp _ => .Jmp ((total : Int) - (i : Int))
     | _ => op) :: patch_jmps_from total (i + 1) rest

def patch_jmps (region : List Opcode) : List Opcode :=
  patch_jmps_from region.length 0 region

/-- The operator match of `generate`'s `BinaryOp` case
(src/codegen.rs lines 93-154), as the list of opcodes pushed; the
`Equal`/`NotEqual` arms synthesize tuple equality from the static type
of `rhs`, with `types.len() - 1` repetitions (`for _ in 1..types.len()`). -/
def binop_ops (op : Operator) (rhs_type : Ty) : List Opcode :=
  match op with
  | .And => [.And]
  | .Divide => [.Div]
  | .Equal =>
    match rhs_type with
    | .Tuple types =>
      .Equal :: (List.replicate (types.length - 1) [Opcode.Rot, .Equal, .And]).flatten
    | _ => [.Equal]
  | .Greater => [.Greater]
  | .GreaterEqual => [.GreaterEqual]
  | .Less => [.Less]
  | .LessEqual => [.LessEqual]
  | .Minus => [.Sub]
  | .Mod => [.Mod]
  | .Multiply => [.Mul]
  | .Not => [.Not]
  | .NotEqual =>
    match rhs_type with
    | .Tuple types =>
      .NotEqual :: (List.replicate (types.length - 1) [Opcode.Rot, .NotEqual, .Or]).flatten
    | _ => [.NotEqual]
  | .Or => [.Or]
  | .Plus => [.Add]

/-- The operator match of `generate`'s `UnaryOp` case
(src/codegen.rs lines 264-273); other operators are `unreachable!()` in
the source and emit nothing here. -/
def unop_ops : Operator → List Opcode
  | .Minus => [.Iconst 0, .Sub]
  | .Not => [.Not]
  | _ => []

/-- The upvalue-removal loop of `generate`'s `Function` case
(src/codegen.rs lines 190-195): remove from `local_ids` every upvalue
name also present in the outer `ids`; removals commute, so the HashMap
iteration order of the source is irrelevant. -/
def mask_upvalues (upvalues : Upvals) (ids : Ids) (local_ids : Ids) : Ids :=
  fun s => if (upvalues s).isSome && (ids s).isSome then none else local_ids s

/-- The tuple-parameter loop of `generate`'s `Function` case
(src/codegen.rs lines 173-180): the k-th identifier gets offset k, and
`count` is incremented for every element. -/
def assign_offsets : List TypedAST → Ids × Nat → Ids × Nat
  | [], acc => acc
  | e :: rest, (m, count) =>
    let m' :=
      match e with
      | .Identifier _ id => ids_insert id count m
      | _ => m
    assign_offsets rest (m', count + 1)

mutual

/-- src/codegen.rs lines 82-276: lower a typed node to opcodes.  The
VM's instruction vector (`vm.instructions`, which only grows inside
`generate`, via `Function` subroutines) is threaded through as the first
component; the opcodes the node pushes onto the caller's `instr` buffer
are returned as the second component. -/
def generate : TypedAST → Ids → List Opcode → List Opcode × List Opcode
  | .BinaryOp _ op lhs rhs line col, ids, vmi =>
    let r := generate rhs ids vmi
    let l := generate lhs ids r.1
    (l.1, .Srcpos line col :: (r.2 ++ l.2 ++ binop_ops op (type_of rhs)))
  | .Boolean b, _, vmi => (vmi, [.Bconst b])
  | .Call f arg, ids, vmi =>
    let a := generate arg ids vmi
    let fr := generate f ids a.1
    (fr.1, a.2 ++ fr.2 ++ [.Call])
  | .Function param body, ids, vmi =>
    let pc : Ids × Nat :=
      match param with
      | .Identifier _ id => (ids_insert id 0 ids, 2)
      | .Tuple _ elements => assign_offsets elements (ids, 0)
      | _ => (ids, 0)   -- unreachable!() in the source
    let upvalues := (find_upvalues body ids upvals_empty).2
    let local_ids : Ids := mask_upvalues upvalues ids pc.1
    let b := generate body local_ids vmi
    let fn_instr := b.2 ++ [.Ret (pc.2 - 1)]
    (b.1 ++ fn_instr, [.Fconst b.1.length upvalues])
  | .If conds els, ids, vmi =>
    let brs := generate_conds conds ids vmi
    let e := generate els ids brs.1
    (e.1, patch_jmps (brs.2 ++ e.2))
  | .Identifier _ id, ids, vmi =>
    (vmi, [match ids id with
           | some offset => .Arg offset
           | none => .GetEnv id])
  | .Integer i, _, vmi => (vmi, [.Iconst i])
  | .Let _ id value, ids, vmi =>
    let v := generate value ids vmi
    (v.1, v.2 ++ [.Dup, .SetEnv id])
  | .Program _ expressions, ids, vmi => generate_program expressions ids vmi
  | .Recur _ arg, ids, vmi =>
    let a := generate arg ids vmi
    let n : Nat :=
      match arg with
      | .Tuple _ elements => elements.length
      | _ => 1
    (a.1, a.2 ++ [.Recur n])
  | .Tuple _ elements, ids, vmi => generate_elements elements ids vmi
  | .UnaryOp _ op ast, ids, vmi =>
    let a := generate ast ids vmi
    (a.1, a.2 ++ unop_ops op)

/-- The branch loop of `generate`'s `If` case (src/codegen.rs lines
205-213): per branch, condition code, `Jz(2 + len(body))`, body code,
placeholder `Jmp`. -/
def generate_conds : List (TypedAST × TypedAST) → Ids → List Opcode → List Opcode × List Opcode
  | [], _, vmi => (vmi, [])
  | (c, b) :: rest, ids, vmi =>
    let ce := generate c ids vmi
    let be := generate b ids ce.1
    let re := generate_conds rest ids be.1
    (re.1, ce.2 ++ (.Jz (2 + (be.2.length : Int)) :: (be.2 ++ (.Jmp jmp_sentinel :: re.2))))

/-- The `Program` loop (src/codegen.rs lines 241-248): `Pop` after every
expression except the last. -/
def generate_program : List TypedAST → Ids → List Opcode → List Opcode × List Opcode
  | [], _, vmi => (vmi, [])
  | [e], ids, vmi => generate e ids vmi
  | e :: rest, ids, vmi =>
    let r := generate e ids vmi
    let rr := generate_program rest ids r.1
    (rr.1, r.2 ++ (.Pop :: rr.2))

/-- The `Tuple` loop (src/codegen.rs lines 257-261): elements in order. -/
def generate_elements : List TypedAST → Ids → List Opcode → List Opcode × List Opcode
  | [], _, vmi => (vmi, [])
  | e :: rest, ids, vmi =>
    let r := generate e ids vmi
    let rr := generate_elements rest ids r.1
    (rr.1, r.2 ++ rr.2)

end

mutual

/-- src/codegen.rs lines 278-300: read one value of static type `typ`
off the operand stack (modelled top-first; `vm.stack.pop()` is the head).
The source walks a tuple's element types in reverse, collecting values,
then reverses the collected vector; `to_typed_value_elems` below is the
structurally recursive version: it pops for the tail types (the later
elements, popped first) before the head type, consing the head value in
front, which yields the same value order. -/
def to_typed_value : Ty → List Value → Option (Value × List Value)
  | .Tuple types, stack =>
    match to_typed_value_elems types stack with
    | some (values, rest) => some (.Tuple values, rest)
    | none => none
  | _, stack =>
    match stack with
    | value :: rest => some (value, rest)
    | [] => none

/-- Element loop of `to_typed_value`'s tuple case (src/codegen.rs lines
281-292), reformulated structurally; see `to_typed_value`. -/
def to_typed_value_elems : List Ty → List Value → Option (List Value × List Value)
  | [], stack => some ([], stack)
  | t :: ts, stack =>
    match to_typed_value_elems ts stack with
    | some (values, rest) =>
      match to_typed_value t rest with
      | some (value, rest2) => some (value :: values, rest2)
      | none => none
    | none => none

end

/-- `InterpreterError` (src/codegen.rs lines 8-13). -/
structure InterpreterError where
  err : String
  line : Nat
  col : Nat
deriving Repr

/-- `usize::max_value()`. -/
def usize_max : Nat := 2 ^ 64 - 1

/-- The result-projection step of `eval` (src/codegen.rs lines 315-323):
after `vm.run()` succeeds, read the typed result off the operand stack; a
failed projection surfaces as the "Stack underflow." interpreter error
located at `usize::max_value()`. -/
def run_result_projection (typ : Ty) (stack : List Value) :
    Except InterpreterError Value :=
  match to_typed_value typ stack with
  | some (value, _) => .ok value
  | none => .error ⟨"Stack underflow.", usize_max, usize_max⟩

/-- Is a type a tuple type? -/
def Ty.isTuple : Ty → Bool
  | .Tuple _ => true
  | _ => false

/-- `type_from_operator` only produces scalar outcomes. -/
theorem type_from_operator_scalar (op : Operator) :
    is_scalar_inference (type_from_operator op) = true := by
  cases op <;> rfl

/-- `other_side` only produces scalar outcomes. -/
theorem other_side_scalar (op : Operator) (a : AST) :
    is_scalar_inference (other_side op a) = true := by
  cases a <;> simp only [other_side]
  case BinaryOp op2 _ _ _ _ => cases op2 <;> rfl
  case UnaryOp op2 _ _ _ => exact type_from_operator_scalar op2
  all_goals cases op <;> rfl

/-- Joint scalar-outcome invariant for the three mutual inference
functions, established by their joint functional induction. -/
theorem typeinfer_scalar_all (id : String) :
    (∀ a : AST, is_scalar_inference (typeinfer id a) = true) ∧
    (∀ es : List AST, is_scalar_inference (typeinfer_list id es) = true) ∧
    (∀ cs : List (AST × AST), is_scalar_inference (typeinfer_conds id cs) = true) := by
  refine typeinfer.mutual_induct id
    (fun a => is_scalar_inference (typeinfer id a) = true)
    (fun es => is_scalar_inference (typeinfer_list id es) = true)
    (fun cs => is_scalar_inference (typeinfer_conds id cs) = true)
    ?_ ?_ ?_ ?_ ?_ ?_ ?_ ?_ ?_ ?_ ?_ ?_ ?_ ?_ ?_ ?_ ?_ ?_ ?_ ?_ ?_ ?_ ?_ ?_
  · intro op lhs rhs l c h typ heq
    have hs := type_from_operator_scalar op
    rw [heq] at hs
    simpa [typeinfer, h, heq] using hs
  · intro op lhs rhs l c h heq
    simpa [typeinfer, h, heq] using other_side_scalar op rhs
  · intro op lhs rhs l c h1 h2 typ heq
    have hs := type_from_operator_scalar op
    rw [heq] at hs
    simpa [typeinfer, h1, h2, heq] using hs
  · intro op lhs rhs l c h1 h2 heq
    simpa [typeinfer, h1, h2, heq] using other_side_scalar op lhs
  · intro op lhs rhs l c h1 h2 typ heq ih
    rw [heq] at ih
    simpa [typeinfer, h1, h2, heq] using ih
  · intro op lhs rhs l c h1 h2 heq ih1 ih2
    simpa [typeinfer, h1, h2, heq] using ih2
  · intro b l c
    rfl
  · intro p body l c ih
    simpa [typeinfer] using ih
  · intro conds els l c typ heq ih
    rw [heq] at ih
    simpa [typeinfer, heq] using ih
  · intro conds els l c heq ih ihels
    simpa [typeinfer, heq] using ihels
  · intro i l c
    rfl
  · intro n value l c ih
    simpa [typeinfer] using ih
  · intro exprs l c ih
    simpa [typeinfer] using ih
  · intro els l c ih
    simpa [typeinfer] using ih
  · intro op a l c h
    simpa [typeinfer, h] using type_from_operator_scalar op
  · intro op a l c h ih
    simpa [typeinfer, h] using ih
  · intro t hBin hBool hFun hIf hInt hLet hProg hTup hUn
    cases t with
    | Identifier s l c => rfl
    | Call f a l c => rfl
    | Recur a l c => rfl
    | Integer i l c => exact absurd rfl (hInt i l c)
    | Boolean b l c => exact absurd rfl (hBool b l c)
    | BinaryOp op lhs rhs l c => exact absurd rfl (hBin op lhs rhs l c)
    | UnaryOp op a l c => exact absurd rfl (hUn op a l c)
    | Tuple es l c => exact absurd rfl (hTup es l c)
    | If conds els l c => exact absurd rfl (hIf conds els l c)
    | Function p b l c => exact absurd rfl (hFun p b l c)
    | Let n v l c => exact absurd rfl (hLet n v l c)
    | Program es l c => exact absurd rfl (hProg es l c)
  · rfl
  · intro e rest typ heq ih
    rw [heq] at ih
    simpa [typeinfer_list, heq] using ih
  · intro e rest heq ih1 ih2
    simpa [typeinfer_list, heq] using ih2
  · rfl
  · intro cc bb rest typ heq ih
    rw [heq] at ih
    simpa [typeinfer_conds, heq] using ih
  · intro cc bb rest heq typ heq2 ih1 ih2
    rw [heq2] at ih2
    simpa [typeinfer_conds, heq, heq2] using ih2
  · intro cc bb rest heq heq2 ih1 ih2 ih3
    simpa [typeinfer_conds, heq, heq2] using ih3

/-- `other_side` agrees with the specification's case analysis of the
operand opposite the identifier, whenever the enclosing operator is an
equality (`==`) or inequality (`~=`) comparison. -/
theorem other_side_eq_spec (op : Operator) (hop : op = .Equal ∨ op = .NotEqual)
    (a : AST) : other_side op a = spec_eq_operand_type a := by
  cases a <;> simp only [other_side, spec_eq_operand_type]
  case BinaryOp op2 _ _ _ _ => cases op2 <;> rfl
  all_goals (rcases hop with h | h) <;> subst h <;> rfl

/-- C1 counterexample: the claim says a bare `Integer` or `Boolean`
literal body yields no inferred type, but `typeinfer` returns the
literal's own type (src/typeinfer.rs lines 97 and 115), as the source's
test `typeinfer!("let x := 1", "x", Type::Integer)` relies on. -/
theorem c1_literal_counterexample :
    typeinfer "x" (.Integer 1 0 0) = some Ty.Integer ∧
    typeinfer "x" (.Boolean true 0 0) = some Ty.Boolean := ⟨rfl, rfl⟩

/-- C1 (amended): for every parameter name, `typeinfer` on an `Integer`
literal returns `Some(Integer)` and on a `Boolean` literal returns
`Some(Boolean)`, regardless of whether the literal references the
parameter; a body that is a bare literal infers the literal's type. -/
theorem c1_literal_inference (id : String) (i : Int) (b : Bool) (l c : Nat) :
    typeinfer id (.Integer i l c) = some Ty.Integer ∧
    typeinfer id (.Boolean b l c) = some Ty.Boolean := ⟨rfl, rfl⟩

/-- C2 counterexample: in the `If` below, the second branch's condition
`x && true` constrains `x` to `Boolean`, yet `typeinfer` returns
`Integer`, derived from the first branch's body `x + 1` — so the result
is not always the one derived from a condition when both a condition and
a body constrain `x`. -/
theorem c2_if_counterexample :
    typeinfer "x"
      (.If [(.Identifier "c" 0 0,
             .BinaryOp .Plus (.Identifier "x" 0 0) (.Integer 1 0 0) 0 0),
            (.BinaryOp .And (.Identifier "x" 0 0) (.Boolean true 0 0) 0 0,
             .Integer 0 0 0)]
        (.Identifier "d" 0 0) 0 0) = some Ty.Integer ∧
    typeinfer "x" (.BinaryOp .And (.Identifier "x" 0 0) (.Boolean true 0 0) 0 0)
      = some Ty.Boolean ∧
    some Ty.Integer ≠ some Ty.Boolean := by
  refine ⟨rfl, rfl, ?_⟩
  intro h
  exact absurd (Option.some.inj h) (by intro h2; cases h2)

/-- C2 (amended): parameter inference on an `If` node visits, for each
branch in order, the branch's condition and then that branch's body, and
finally the else clause, returning the first non-`None` result in that
interleaved order; in particular a condition is consulted before the
body of the same branch, but a body of an earlier branch wins over a
condition of a later branch. -/
theorem c2_if_traversal_order (id : String) (conds : List (AST × AST))
    (els : AST) (l c : Nat) :
    typeinfer id (.If conds els l c) =
      (conds.findSome? fun cb => (typeinfer id cb.1).or (typeinfer id cb.2)).or
        (typeinfer id els) := by
  have h : ∀ cs : List (AST × AST), typeinfer_conds id cs =
      cs.findSome? fun cb => (typeinfer id cb.1).or (typeinfer id cb.2) := by
    intro cs
    induction cs with
    | nil => rfl
    | cons hd tl ih =>
      obtain ⟨cc, bb⟩ := hd
      rw [List.findSome?_cons]
      simp only [typeinfer_conds]
      cases typeinfer id cc <;> cases typeinfer id bb <;> simp [Option.or, ih]
  simp only [typeinfer, h]
  cases conds.findSome? fun cb => (typeinfer id cb.1).or (typeinfer id cb.2) <;>
    simp [Option.or]

/-- C3 (confirmed): when the parameter appears as one operand of an
`==`/`~=` comparison, `typeinfer` inspects the other operand: a literal
yields its type, a unary op yields its operator's operand type, a binary
op with a fixed operand type yields that type, and anything else yields
`Any` — in both orientations of the comparison. -/
theorem c3_eq_comparison_inference (x : String) (op : Operator) (other : AST)
    (l c l2 c2 : Nat) (hop : op = .Equal ∨ op = .NotEqual) :
    typeinfer x (.BinaryOp op (.Identifier x l2 c2) other l c) =
      spec_eq_operand_type other ∧
    typeinfer x (.BinaryOp op other (.Identifier x l2 c2) l c) =
      spec_eq_operand_type other := by
  have hx : is_id x (.Identifier x l2 c2) = true := by simp [is_id]
  have htfo : type_from_operator op = none := by
    rcases hop with h | h <;> subst h <;> rfl
  constructor
  · simp only [typeinfer]
    rw [if_pos hx, htfo]
    exact other_side_eq_spec op hop other
  · by_cases ho : is_id x other = true
    · cases other <;> simp [is_id] at ho
      rename_i s sl sc
      have hs : is_id x (.Identifier s sl sc) = true := by simp [is_id, ho]
      simp only [typeinfer]
      rw [if_pos hs, htfo]
      simp only [other_side, spec_eq_operand_type]
      rcases hop with h | h <;> subst h <;> rfl
    · simp only [typeinfer]
      rw [if_neg ho, if_pos hx, htfo]
      exact other_side_eq_spec op hop other

/-- C3 witness: concrete instance `x == 5` and `5 == x`. -/
theorem c3_eq_comparison_inference_witness :
    typeinfer "x" (.BinaryOp .Equal (.Identifier "x" 0 0) (.Integer 5 0 0) 0 0) =
      spec_eq_operand_type (.Integer 5 0 0) ∧
    typeinfer "x" (.BinaryOp .Equal (.Integer 5 0 0) (.Identifier "x" 0 0) 0 0) =
      spec_eq_operand_type (.Integer 5 0 0) :=
  c3_eq_comparison_inference "x" .Equal (.Integer 5 0 0) 0 0 0 0 (Or.inl rfl)

/-- C10 (confirmed): parameter inference never produces a tuple or
function type — every result is `None`, `Some(Integer)`,
`Some(Boolean)`, or `Some(Any)`. -/
theorem c10_inference_scalar_range (id : String) (a : AST) :
    typeinfer id a = none ∨ typeinfer id a = some Ty.Integer ∨
    typeinfer id a = some Ty.Boolean ∨ typeinfer id a = some Ty.Any := by
  have h := (typeinfer_scalar_all id).1 a
  cases ho : typeinfer id a with
  | none => exact Or.inl rfl
  | some t =>
    rw [ho] at h
    cases t with
    | Integer => exact Or.inr (Or.inl rfl)
    | Boolean => exact Or.inr (Or.inr (Or.inl rfl))
    | Any => exact Or.inr (Or.inr (Or.inr rfl))
    | Tuple ts => exact absurd h (by simp [is_scalar_inference])
    | Function d r => exact absurd h (by simp [is_scalar_inference])

/-- Every `Jmp` in the output of the patching loop carries offset
`total - (start + local index)`. -/
theorem patch_jmps_from_jmp_offset (total : Nat) :
    ∀ (region : List Opcode) (i0 i : Nat) (o : Int),
      (patch_jmps_from total i0 region).get? i = some (.Jmp o) →
      o = (total : Int) - (i0 + i : Nat) := by
  intro region
  induction region with
  | nil => intro i0 i o h; simp [patch_jmps_from] at h
  | cons op rest ih =>
    intro i0 i o h
    cases i with
    | zero =>
      simp only [patch_jmps_from, List.get?] at h
      cases op <;> simp_all
    | succ j =>
      simp only [patch_jmps_from, List.get?] at h
      have := ih (i0 + 1) j o h
      omega

/-- The patching loop preserves the region's length. -/
theorem patch_jmps_from_length (total : Nat) :
    ∀ (region : List Opcode) (i0 : Nat),
      (patch_jmps_from total i0 region).length = region.length := by
  intro region
  induction region with
  | nil => intro i0; rfl
  | cons op rest ih => intro i0; simp [patch_jmps_from, ih]

/-- C4 (confirmed): compiling an `If`, each branch contributes its
condition code, `Jz(2 + len(body))` (skipping the body and its trailing
`Jmp` on false), the body code, and a placeholder `Jmp`; after the else
clause, every `Jmp` at index `i` of the emitted region `[start, end)` is
rewritten to offset `end - i`, so every `Jmp` in the final region jumps
to the first instruction past the `If`. -/
theorem c4_if_codegen (conds : List (TypedAST × TypedAST)) (els : TypedAST)
    (cnd bdy : TypedAST) (ids : Ids) (vmi : List Opcode) :
    generate (.If conds els) ids vmi =
      ((generate els ids (generate_conds conds ids vmi).1).1,
       patch_jmps ((generate_conds conds ids vmi).2 ++
         (generate els ids (generate_conds conds ids vmi).1).2)) ∧
    generate_conds ((cnd, bdy) :: conds) ids vmi =
      ((generate_conds conds ids (generate bdy ids (generate cnd ids vmi).1).1).1,
       (generate cnd ids vmi).2 ++
         (.Jz (2 + ((generate bdy ids (generate cnd ids vmi).1).2.length : Int)) ::
           ((generate bdy ids (generate cnd ids vmi).1).2 ++
             (.Jmp jmp_sentinel ::
               (generate_conds conds ids
                 (generate bdy ids (generate cnd ids vmi).1).1).2)))) ∧
    (∀ (i : Nat) (o : Int),
      (generate (.If conds els) ids vmi).2.get? i = some (.Jmp o) →
      o = ((generate (.If conds els) ids vmi).2.length : Int) - (i : Nat)) := by
  refine ⟨rfl, rfl, ?_⟩
  intro i o h
  have hlen : (generate (.If conds els) ids vmi).2.length =
      ((generate_conds conds ids vmi).2 ++
        (generate els ids (generate_conds conds ids vmi).1).2).length := by
    simp only [generate, patch_jmps]
    exact patch_jmps_from_length _ _ _
  rw [hlen]
  have h' : (patch_jmps_from
      ((generate_conds conds ids vmi).2 ++
        (generate els ids (generate_conds conds ids vmi).1).2).length 0
      ((generate_conds conds ids vmi).2 ++
        (generate els ids (generate_conds conds ids vmi).1).2)).get? i =
      some (.Jmp o) := h
  have := patch_jmps_from_jmp_offset _ _ 0 i o h'
  simpa using this

/-- C4 witness: for `if true then 1 else 2 end` the emitted region is
`[Bconst true, Jz 3, Iconst 1, Jmp 2, Iconst 2]`; the `Jmp` at index 3
carries offset `5 - 3 = 2`. -/
theorem c4_if_codegen_witness :
    (generate (.If [(.Boolean true, .Integer 1)] (.Integer 2)) ids_empty []).2.get? 3 =
      some (.Jmp 2) ∧
    (2 : Int) =
      (((generate (.If [(.Boolean true, .Integer 1)] (.Integer 2)) ids_empty
        []).2.length : Int) - ((3 : Nat) : Int)) :=
  ⟨rfl,
   (c4_if_codegen [(.Boolean true, .Integer 1)] (.Integer 2) (.Boolean true)
     (.Integer 1) ids_empty []).2.2 3 2 rfl⟩

/-- C8 (confirmed): a `BinaryOp` node compiles to `Srcpos(line, col)`,
then the right operand's code, then the left operand's code, then the
operator's opcode block; the state threading shows `rhs` is generated
before `lhs`. -/
theorem c8_binop_emission (t : Ty) (op : Operator) (lhs rhs : TypedAST)
    (line col : Nat) (ids : Ids) (vmi : List Opcode) :
    generate (.BinaryOp t op lhs rhs line col) ids vmi =
      ((generate lhs ids (generate rhs ids vmi).1).1,
       .Srcpos line col ::
         ((generate rhs ids vmi).2 ++ (generate lhs ids (generate rhs ids vmi).1).2 ++
           binop_ops op (type_of rhs))) := rfl

/-- C6 (confirmed): for `==` on operands of a tuple type of arity N the
generator emits `Equal` once and then `{Rot, Equal, And}` exactly N-1
times; `~=` is the dual with `NotEqual`/`Or`; non-tuple operand types
get a single `Equal`/`NotEqual` opcode.  The last two conjuncts place
the opcode block at the end of the `BinaryOp` emission. -/
theorem c6_tuple_equality_codegen (t : Ty) (lhs rhs : TypedAST) (l c : Nat)
    (ids : Ids) (vmi : List Opcode) :
    (∀ ts : List Ty, type_of rhs = .Tuple ts →
      binop_ops .Equal (type_of rhs) =
        .Equal :: (List.replicate (ts.length - 1) [Opcode.Rot, .Equal, .And]).flatten ∧
      binop_ops .NotEqual (type_of rhs) =
        .NotEqual :: (List.replicate (ts.length - 1) [Opcode.Rot, .NotEqual, .Or]).flatten) ∧
    ((type_of rhs).isTuple = false →
      binop_ops .Equal (type_of rhs) = [.Equal] ∧
      binop_ops .NotEqual (type_of rhs) = [.NotEqual]) ∧
    (generate (.BinaryOp t .Equal lhs rhs l c) ids vmi).2 =
      .Srcpos l c ::
        ((generate rhs ids vmi).2 ++ (generate lhs ids (generate rhs ids vmi).1).2 ++
          binop_ops .Equal (type_of rhs)) ∧
    (generate (.BinaryOp t .NotEqual lhs rhs l c) ids vmi).2 =
      .Srcpos l c ::
        ((generate rhs ids vmi).2 ++ (generate lhs ids (generate rhs ids vmi).1).2 ++
          binop_ops .NotEqual (type_of rhs)) := by
  refine ⟨?_, ?_, rfl, rfl⟩
  · intro ts h
    rw [h]
    exact ⟨rfl, rfl⟩
  · intro h
    cases htr : type_of rhs
    case Tuple ts => simp [Ty.isTuple, htr] at h
    all_goals exact ⟨rfl, rfl⟩

/-- C6 witness: a pair-typed comparison gets `Equal, Rot, Equal, And`,
and an integer-typed comparison a single `Equal`. -/
theorem c6_tuple_equality_codegen_witness :
    (binop_ops .Equal
        (type_of (.Tuple (.Tuple [.Integer, .Integer]) [.Integer 1, .Integer 0])) =
      .Equal :: (List.replicate (([Ty.Integer, Ty.Integer].length) - 1)
        [Opcode.Rot, .Equal, .And]).flatten ∧
      binop_ops .NotEqual
        (type_of (.Tuple (.Tuple [.Integer, .Integer]) [.Integer 1, .Integer 0])) =
      .NotEqual :: (List.replicate (([Ty.Integer, Ty.Integer].length) - 1)
        [Opcode.Rot, .NotEqual, .Or]).flatten) ∧
    (binop_ops .Equal (type_of (.Integer 1)) = [.Equal] ∧
      binop_ops .NotEqual (type_of (.Integer 1)) = [.NotEqual]) :=
  ⟨(c6_tuple_equality_codegen .Boolean (.Integer 0) (.Tuple (.Tuple [.Integer, .Integer])
      [.Integer 1, .Integer 0]) 0 0 ids_empty []).1 [.Integer, .Integer] rfl,
   (c6_tuple_equality_codegen .Boolean (.Integer 0) (.Integer 1) 0 0
      ids_empty []).2.1 rfl⟩

/-- The counter of `assign_offsets` adds the element count to its
starting value. -/
theorem assign_offsets_count :
    ∀ (es : List TypedAST) (m : Ids) (c0 : Nat),
      (assign_offsets es (m, c0)).2 = c0 + es.length := by
  intro es
  induction es with
  | nil => intro m c0; simp [assign_offsets]
  | cons e rest ih =>
    intro m c0
    simp only [assign_offsets]
    rw [ih]
    simp [Nat.add_comm, Nat.add_assoc, Nat.add_left_comm]

/-- `assign_offsets` over identifiers whose names avoid `n` leaves the
map unchanged at `n`. -/
theorem assign_offsets_preserve :
    ∀ (params : List (Ty × String)) (m : Ids) (c0 : Nat) (n : String),
      n ∉ params.map Prod.snd →
      (assign_offsets (params.map fun p => TypedAST.Identifier p.1 p.2) (m, c0)).1 n = m n := by
  intro params
  induction params with
  | nil => intro m c0 n _; rfl
  | cons p rest ih =>
    intro m c0 n hn
    simp only [List.map_cons, List.mem_cons, not_or] at hn
    simp only [List.map_cons, assign_offsets]
    rw [ih _ _ _ hn.2]
    simp [ids_insert, hn.1]

/-- With distinct names, `assign_offsets` maps the k-th identifier to
offset `c0 + k`. -/
theorem assign_offsets_get :
    ∀ (params : List (Ty × String)) (m : Ids) (c0 : Nat),
      (params.map Prod.snd).Nodup →
      ∀ (k : Nat) (hk : k < params.length),
        (assign_offsets (params.map fun p => TypedAST.Identifier p.1 p.2) (m, c0)).1
          (params.get ⟨k, hk⟩).2 = some (c0 + k) := by
  intro params
  induction params with
  | nil => intro m c0 _ k hk; exact absurd hk (by simp)
  | cons p rest ih =>
    intro m c0 hnd k hk
    simp only [List.map_cons, List.nodup_cons] at hnd
    cases k with
    | zero =>
      simp only [List.map_cons, assign_offsets, List.get]
      rw [assign_offsets_preserve rest _ _ _ hnd.1]
      simp [ids_insert]
    | succ j =>
      simp only [List.map_cons, assign_offsets, List.get]
      have := ih (ids_insert p.2 c0 m) (c0 + 1) hnd.2 j (by
        simpa [Nat.succ_lt_succ_iff] using hk)
      rw [this]
      simp [Nat.add_comm, Nat.add_assoc, Nat.add_left_comm]

/-- C5 (confirmed): a single-identifier parameter gets argument offset 0
with `count = 2`; an n-element tuple of identifiers gets offset k for its
k-th identifier (when the names are distinct) with `count = n`; the body
is compiled into a separate subroutine buffer terminated by
`Ret(count - 1)`, appended at the end of the VM's instruction vector, and
an `Fconst` holding the buffer's starting ip and the collected upvalues
is emitted into the caller's stream. -/
theorem c5_function_codegen :
    (∀ (pt : Ty) (pid : String) (body : TypedAST) (ids : Ids) (vmi : List Opcode),
      generate (.Function (.Identifier pt pid) body) ids vmi =
        (let upv := (find_upvalues body ids upvals_empty).2
         let b := generate body (mask_upvalues upv ids (ids_insert pid 0 ids)) vmi
         (b.1 ++ (b.2 ++ [.Ret (2 - 1)]), [.Fconst b.1.length upv]))) ∧
    (∀ (tt : Ty) (params : List (Ty × String)) (body : TypedAST) (ids : Ids)
        (vmi : List Opcode),
      generate (.Function (.Tuple tt (params.map fun p => TypedAST.Identifier p.1 p.2))
          body) ids vmi =
        (let upv := (find_upvalues body ids upvals_empty).2
         let b := generate body
           (mask_upvalues upv ids
             (assign_offsets (params.map fun p => TypedAST.Identifier p.1 p.2)
               (ids, 0)).1) vmi
         (b.1 ++ (b.2 ++ [.Ret (params.length - 1)]), [.Fconst b.1.length upv]))) ∧
    (∀ (params : List (Ty × String)) (ids : Ids),
      (assign_offsets (params.map fun p => TypedAST.Identifier p.1 p.2) (ids, 0)).2 =
        params.length) ∧
    (∀ (params : List (Ty × String)) (ids : Ids),
      (params.map Prod.snd).Nodup →
      ∀ (k : Nat) (hk : k < params.length),
        (assign_offsets (params.map fun p => TypedAST.Identifier p.1 p.2) (ids, 0)).1
          (params.get ⟨k, hk⟩).2 = some k) := by
  refine ⟨fun pt pid body ids vmi => rfl, ?_, ?_, ?_⟩
  · intro tt params body ids vmi
    simp only [generate]
    rw [show (assign_offsets (params.map fun p => TypedAST.Identifier p.1 p.2)
        (ids, 0)).2 = params.length by
      rw [assign_offsets_count]; simp]
  · intro params ids
    rw [assign_offsets_count]
    simp
  · intro params ids hnd k hk
    simpa using assign_offsets_get params ids 0 hnd k hk

/-- C5 witness: for parameter tuple `(x, y)` the identifier `y` (index 1)
receives offset 1. -/
theorem c5_function_codegen_witness :
    (assign_offsets ([((Ty.Integer : Ty), "x"), ((Ty.Integer : Ty), "y")].map
        fun p => TypedAST.Identifier p.1 p.2) (ids_empty, 0)).1
      (([((Ty.Integer : Ty), "x"), ((Ty.Integer : Ty), "y")].get
        ⟨1, by decide⟩).2) = some 1 :=
  c5_function_codegen.2.2.2 [((Ty.Integer : Ty), "x"), ((Ty.Integer : Ty), "y")]
    ids_empty (by simp) 1 (by decide)

/-- Joint invariant of the upvalue scan: once a name is absent from the
in-scope map `ids`, the scan keeps it absent (nothing ever inserts into
`ids`) and leaves the upvalue map unchanged at that name. -/
theorem find_upvalues_shadow_all :
    (∀ (e : TypedAST) (ids : Ids) (up : Upvals), ∀ n, ids n = none →
      (find_upvalues e ids up).1 n = none ∧ (find_upvalues e ids up).2 n = up n) ∧
    (∀ (es : List TypedAST) (ids : Ids) (up : Upvals), ∀ n, ids n = none →
      (find_upvalues_list es ids up).1 n = none ∧
        (find_upvalues_list es ids up).2 n = up n) ∧
    (∀ (cs : List (TypedAST × TypedAST)) (ids : Ids) (up : Upvals), ∀ n, ids n = none →
      (find_upvalues_conds cs ids up).1 n = none ∧
        (find_upvalues_conds cs ids up).2 n = up n) := by
  refine find_upvalues.mutual_induct
    (fun e ids up => ∀ n, ids n = none →
      (find_upvalues e ids up).1 n = none ∧ (find_upvalues e ids up).2 n = up n)
    (fun es ids up => ∀ n, ids n = none →
      (find_upvalues_list es ids up).1 n = none ∧
        (find_upvalues_list es ids up).2 n = up n)
    (fun cs ids up => ∀ n, ids n = none →
      (find_upvalues_conds cs ids up).1 n = none ∧
        (find_upvalues_conds cs ids up).2 n = up n)
    ?_ ?_ ?_ ?_ ?_ ?_ ?_ ?_ ?_ ?_ ?_ ?_ ?_ ?_ ?_ ?_
  · intro t op lhs rhs l c ids up
    dsimp only
    intro ih1 ih2 n hn
    obtain ⟨h1, h2⟩ := ih1 n hn
    obtain ⟨h3, h4⟩ := ih2 n h1
    simp only [find_upvalues]
    exact ⟨h3, h4.trans h2⟩
  · intro f args ids up
    dsimp only
    intro ih1 ih2 n hn
    obtain ⟨h1, h2⟩ := ih1 n hn
    obtain ⟨h3, h4⟩ := ih2 n h1
    simp only [find_upvalues]
    exact ⟨h3, h4.trans h2⟩
  · intro param body ids up
    dsimp only
    intro ih1 ih2 n hn
    obtain ⟨h1, h2⟩ := ih1 n hn
    obtain ⟨h3, h4⟩ := ih2 n h1
    simp only [find_upvalues]
    exact ⟨hn, h4.trans h2⟩
  · intro conds els ids up
    dsimp only
    intro ih1 ih2 n hn
    obtain ⟨h1, h2⟩ := ih1 n hn
    obtain ⟨h3, h4⟩ := ih2 n h1
    simp only [find_upvalues]
    exact ⟨h3, h4.trans h2⟩
  · intro typ id ids up offset hs n hn
    have hne : ¬n = id := fun h => by simp [h, hs] at hn
    simp only [find_upvalues, hs]
    refine ⟨hn, ?_⟩
    simp only [upvals_insert]
    rw [if_neg hne]
  · intro typ id ids up hs n hn
    simp only [find_upvalues, hs]
    exact ⟨hn, by trivial⟩
  · intro t id value ids up ih n hn
    have hrem : (ids_remove id ids) n = none := by
      simp only [ids_remove]
      split <;> simp [hn]
    simp only [find_upvalues]
    exact ih n hrem
  · intro t expressions ids up ih n hn
    simp only [find_upvalues]
    exact ih n hn
  · intro t args ids up ih n hn
    simp only [find_upvalues]
    exact ih n hn
  · intro t elements ids up ih n hn
    simp only [find_upvalues]
    exact ih n hn
  · intro t op ast ids up ih n hn
    simp only [find_upvalues]
    exact ih n hn
  · intro t ids up hBin hCall hFun hIf hId hLet hProg hRec hTup hUn n hn
    cases t with
    | Integer i => exact ⟨hn, rfl⟩
    | Boolean b => exact ⟨hn, rfl⟩
    | BinaryOp a a1 lhs rhs a2 a3 => exact absurd rfl (hBin a a1 lhs rhs a2 a3)
    | Call f args => exact absurd rfl (hCall f args)
    | Function p b => exact absurd rfl (hFun p b)
    | If conds els => exact absurd rfl (hIf conds els)
    | Identifier ty i => exact absurd rfl (hId ty i)
    | Let a i v => exact absurd rfl (hLet a i v)
    | Program a es => exact absurd rfl (hProg a es)
    | Recur a args => exact absurd rfl (hRec a args)
    | Tuple a es => exact absurd rfl (hTup a es)
    | UnaryOp a o e => exact absurd rfl (hUn a o e)
  · intro ids up n hn
    exact ⟨hn, rfl⟩
  · intro c b rest ids up
    dsimp only
    intro ih1 ih2 ih3 n hn
    obtain ⟨h1, h2⟩ := ih1 n hn
    obtain ⟨h3, h4⟩ := ih2 n h1
    obtain ⟨h5, h6⟩ := ih3 n h3
    simp only [find_upvalues_conds]
    exact ⟨h5, (h6.trans h4).trans h2⟩
  · intro ids up n hn
    exact ⟨hn, rfl⟩
  · intro e rest ids up
    dsimp only
    intro ih1 ih2 n hn
    obtain ⟨h1, h2⟩ := ih1 n hn
    obtain ⟨h3, h4⟩ := ih2 n h1
    simp only [find_upvalues_list]
    exact ⟨h3, h4.trans h2⟩

/-- C7 (confirmed): a `Let` binding a name removes it from the in-scope
outer-argument map for the remainder of the scan and never reinstates
it: after scanning `Let n v` followed by any further expressions, the
scope map still lacks `n` and the upvalue map is unchanged at `n` — so
neither an occurrence of `n` inside the let value nor one after the
`Let` is recorded as an upvalue. -/
theorem c7_let_shadowing (t : Ty) (n : String) (v : TypedAST)
    (rest : List TypedAST) (ids : Ids) (up : Upvals) :
    (find_upvalues_list (.Let t n v :: rest) ids up).1 n = none ∧
    (find_upvalues_list (.Let t n v :: rest) ids up).2 n = up n := by
  have hrem : (ids_remove n ids) n = none := by simp [ids_remove]
  have h1 := find_upvalues_shadow_all.1 v (ids_remove n ids) up n hrem
  have h2 := find_upvalues_shadow_all.2.1 rest
    (find_upvalues v (ids_remove n ids) up).1
    (find_upvalues v (ids_remove n ids) up).2 n h1.1
  simp only [find_upvalues_list, find_upvalues]
  exact ⟨h2.1, h2.2.trans h1.2⟩

/-- A non-tuple type pops exactly the top of a non-empty stack. -/
theorem to_typed_value_scalar_pop (t : Ty) (ht : t.isTuple = false)
    (v : Value) (rest : List Value) :
    to_typed_value t (v :: rest) = some (v, rest) := by
  cases t <;> first | rfl | simp [Ty.isTuple] at ht

/-- A non-tuple type underflows on an empty stack. -/
theorem to_typed_value_scalar_empty (t : Ty) (ht : t.isTuple = false) :
    to_typed_value t [] = none := by
  cases t <;> first | rfl | simp [Ty.isTuple] at ht

/-- Projecting `n` scalar element types off a stack holding at least `n`
values consumes exactly the top `n` values and returns them reversed
(i.e. in generation order). -/
theorem to_typed_value_elems_pop (ts : List Ty) :
    ∀ (vs rest : List Value), (∀ t ∈ ts, t.isTuple = false) →
      vs.length = ts.length →
      to_typed_value_elems ts (vs ++ rest) = some (vs.reverse, rest) := by
  induction ts with
  | nil =>
    intro vs rest _ hlen
    rw [List.length_nil, List.length_eq_zero] at hlen
    subst hlen
    rfl
  | cons t ts ih =>
    intro vs rest hsc hlen
    rcases List.eq_nil_or_concat vs with h | ⟨ys, y, h⟩
    · subst h
      exact absurd hlen (by simp)
    · subst h
      rw [List.concat_eq_append] at hlen ⊢
      have hys : ys.length = ts.length := by
        simp only [List.length_append, List.length_singleton, List.length_cons,
          List.length_nil] at hlen
        omega
      simp only [to_typed_value_elems]
      rw [List.append_assoc, List.singleton_append,
        ih ys (y :: rest) (fun u hu => hsc u (List.mem_cons_of_mem _ hu)) hys]
      dsimp only
      rw [to_typed_value_scalar_pop t (hsc t (List.mem_cons_self _ _)) y rest]
      simp

/-- Projecting `n` scalar element types off a stack holding fewer than
`n` values underflows. -/
theorem to_typed_value_elems_underflow (ts : List Ty) :
    ∀ stack : List Value, (∀ t ∈ ts, t.isTuple = false) →
      stack.length < ts.length →
      to_typed_value_elems ts stack = none := by
  induction ts with
  | nil =>
    intro s _ h
    simp at h
  | cons t ts ih =>
    intro stack hsc hlen
    simp only [to_typed_value_elems]
    by_cases hlt : stack.length < ts.length
    · rw [ih stack (fun u hu => hsc u (List.mem_cons_of_mem _ hu)) hlt]
    · have heq : stack.length = ts.length := by
        simp only [List.length_cons] at hlen
        omega
      have hfull := to_typed_value_elems_pop ts stack []
        (fun u hu => hsc u (List.mem_cons_of_mem _ hu)) heq
      rw [List.append_nil] at hfull
      rw [hfull]
      dsimp only
      rw [to_typed_value_scalar_empty t (hsc t (List.mem_cons_self _ _))]

/-- C9 (confirmed): for a top-level result of type `Tuple(T1..Tn)` with
scalar element types, projection pops the top `n` values (the last
generated element first) and rebuilds the `Tuple` in the original
element order, leaving the rest of the stack; with fewer than `n` values
on the stack, projection fails and `eval` surfaces the
"Stack underflow." interpreter error. -/
theorem c9_result_projection :
    (∀ (ts : List Ty) (vs rest : List Value),
      (∀ t ∈ ts, t.isTuple = false) → vs.length = ts.length →
      to_typed_value (.Tuple ts) (vs ++ rest) = some (.Tuple vs.reverse, rest)) ∧
    (∀ (ts : List Ty) (stack : List Value),
      (∀ t ∈ ts, t.isTuple = false) → stack.length < ts.length →
      to_typed_value (.Tuple ts) stack = none ∧
      run_result_projection (.Tuple ts) stack =
        .error ⟨"Stack underflow.", usize_max, usize_max⟩) := by
  constructor
  · intro ts vs rest hsc hlen
    simp only [to_typed_value]
    rw [to_typed_value_elems_pop ts vs rest hsc hlen]
  · intro ts stack hsc hlen
    have h : to_typed_value (.Tuple ts) stack = none := by
      simp only [to_typed_value]
      rw [to_typed_value_elems_underflow ts stack hsc hlen]
    refine ⟨h, ?_⟩
    simp only [run_result_projection, h]

/-- C9 witness: the stack left by `(1, false)` projects to
`Tuple [Integer 1, Boolean false]`, and projecting a 1-tuple type off an
empty stack yields the "Stack underflow." error. -/
theorem c9_result_projection_witness :
    to_typed_value (.Tuple [.Integer, .Boolean])
        ([Value.Boolean false, Value.Integer 1] ++ []) =
      some (.Tuple [Value.Boolean false, Value.Integer 1].reverse, []) ∧
    (to_typed_value (.Tuple [.Integer]) [] = none ∧
      run_result_projection (.Tuple [.Integer]) [] =
        .error ⟨"Stack underflow.", usize_max, usize_max⟩) :=
  ⟨c9_result_projection.1 [.Integer, .Boolean]
      [Value.Boolean false, Value.Integer 1] [] (by decide) (by decide),
   c9_result_projection.2 [.Integer] [] (by decide) (by decide)⟩

end Sora
